import Mathlib

/-!
# Verification of the tenant-scoped Shopify access layer

Shallow embedding, in Lean 4, of the core components of the
`archie-core-shopify-layer` repository:

* the base64 / hex codecs used by the webhook verifier and the
  credential cipher (`encoding/base64` std. encoding with padding,
  `encoding/hex`),
* the per-shop token-bucket rate limiter
  (`internal/infrastructure/shopify/rate_limiter.go`),
* the retry executor (`ExecuteWithRetry` / `isRetryableError`),
* the webhook signature verifiers (`WebhookVerifier.Verify` and
  `VerifyWebhookHMAC`) and the inbound webhook HTTP handler,
* the AES-GCM credential cipher service (`encryption.NewService`,
  `Encrypt`, `Decrypt`), with the AEAD primitive kept as an abstract
  parameter (it is the Go standard library, an external collaborator),
* the webhook dispatcher (`internal/application/webhook_dispatcher.go`),
* an interleaving model of the tenant client pool
  (`internal/infrastructure/shopify/pool.go`) with its `sync.Once`
  based single-flight construction.

Machine integers are modelled as `Int` (Go `int`) or `Nat` where the Go
code only ever holds non-negative values; byte strings are `List Nat`
with explicit `< 256` bounds where they matter.
-/

namespace GoB64

/-- The standard base64 alphabet, as used by Go's `base64.StdEncoding`. -/
def b64chars : List Char :=
  [ 'A', 'B', 'C', 'D', 'E', 'F', 'G', 'H', 'I', 'J', 'K', 'L', 'M',
    'N', 'O', 'P', 'Q', 'R', 'S', 'T', 'U', 'V', 'W', 'X', 'Y', 'Z',
    'a', 'b', 'c', 'd', 'e', 'f', 'g', 'h', 'i', 'j', 'k', 'l', 'm',
    'n', 'o', 'p', 'q', 'r', 's', 't', 'u', 'v', 'w', 'x', 'y', 'z',
    '0', '1', '2', '3', '4', '5', '6', '7', '8', '9', '+', '/' ]

/-- Character for a 6-bit group (only used with arguments `< 64`). -/
def sextetToChar (n : Nat) : Char := b64chars.getD n '='

/-- Inverse lookup of `sextetToChar`; `none` for characters outside the
alphabet (in particular for `'='`). -/
def charToSextet (c : Char) : Option Nat := b64chars.findIdx? (· == c)

/-- Go `base64.StdEncoding.EncodeToString` on a byte list: 3-byte groups
become 4 alphabet characters; a 2-byte tail becomes 3 characters and one
`'='`; a 1-byte tail becomes 2 characters and two `'='`. -/
def encode3 : List Nat → List Char
  | [] => []
  | [a] => [sextetToChar (a / 4), sextetToChar (a % 4 * 16), '=', '=']
  | [a, b] => [sextetToChar (a / 4), sextetToChar (a % 4 * 16 + b / 16),
               sextetToChar (b % 16 * 4), '=']
  | a :: b :: c :: rest =>
      sextetToChar (a / 4) :: sextetToChar (a % 4 * 16 + b / 16) ::
      sextetToChar (b % 16 * 4 + c / 64) :: sextetToChar (c % 64) ::
      encode3 rest

/-- Go `base64.StdEncoding.DecodeString`: input length must be a multiple
of four, `'='` padding is allowed only in the final quantum, and every
non-padding character must belong to the alphabet. -/
def decode4 : List Char → Option (List Nat)
  | [] => some []
  | w :: x :: y :: z :: rest =>
      match charToSextet w, charToSextet x with
      | some sw, some sx =>
          if z = '=' then
            if rest = [] then
              if y = '=' then
                some [sw * 4 + sx / 16]
              else
                match charToSextet y with
                | some sy => some [sw * 4 + sx / 16, sx % 16 * 16 + sy / 4]
                | none => none
            else none
          else
            match charToSextet y, charToSextet z with
            | some sy, some sz =>
                match decode4 rest with
                | some bs =>
                    some ([sw * 4 + sx / 16, sx % 16 * 16 + sy / 4,
                           sy % 4 * 64 + sz] ++ bs)
                | none => none
            | _, _ => none
      | _, _ => none
  | _ => none

theorem charToSextet_sextetToChar : ∀ n < 64, charToSextet (sextetToChar n) = some n := by
  decide

theorem sextetToChar_ne_pad : ∀ n < 64, sextetToChar n ≠ '=' := by
  decide

/-- Decoding is a left inverse of encoding on byte lists. -/
theorem decode4_encode3 : ∀ bs : List Nat, (∀ x ∈ bs, x < 256) →
    decode4 (encode3 bs) = some bs
  | [], _ => rfl
  | [a], h => by
      have ha : a < 256 := h a (by simp)
      have l1 := charToSextet_sextetToChar (a / 4) (by omega)
      have l2 := charToSextet_sextetToChar (a % 4 * 16) (by omega)
      simp [encode3, decode4, l1, l2]
      omega
  | [a, b], h => by
      have ha : a < 256 := h a (by simp)
      have hb : b < 256 := h b (by simp)
      have l1 := charToSextet_sextetToChar (a / 4) (by omega)
      have l2 := charToSextet_sextetToChar (a % 4 * 16 + b / 16) (by omega)
      have l3 := charToSextet_sextetToChar (b % 16 * 4) (by omega)
      have l3ne := sextetToChar_ne_pad (b % 16 * 4) (by omega)
      simp [encode3, decode4, l1, l2, l3, l3ne]
      omega
  | a :: b :: c :: rest, h => by
      have ha : a < 256 := h a (by simp)
      have hb : b < 256 := h b (by simp)
      have hc : c < 256 := h c (by simp)
      have l1 := charToSextet_sextetToChar (a / 4) (by omega)
      have l2 := charToSextet_sextetToChar (a % 4 * 16 + b / 16) (by omega)
      have l3 := charToSextet_sextetToChar (b % 16 * 4 + c / 64) (by omega)
      have l4 := charToSextet_sextetToChar (c % 64) (by omega)
      have l4ne := sextetToChar_ne_pad (c % 64) (by omega)
      have ih : decode4 (encode3 rest) = some rest :=
        decode4_encode3 rest (fun x hx => h x
          (List.mem_cons_of_mem _ (List.mem_cons_of_mem _ (List.mem_cons_of_mem _ hx))))
      show decode4 (sextetToChar (a / 4) :: sextetToChar (a % 4 * 16 + b / 16) ::
        sextetToChar (b % 16 * 4 + c / 64) :: sextetToChar (c % 64) ::
        encode3 rest) = _
      simp [decode4, l1, l2, l3, l4, l4ne, ih]
      omega

end GoB64

namespace GoHex

/-- Value of one hexadecimal digit, as accepted by Go's
`hex.DecodeString` (`0-9`, `a-f`, `A-F`). -/
def hexDigit (c : Char) : Option Nat :=
  match ("0123456789abcdef".toList).findIdx? (· == c) with
  | some n => some n
  | none =>
      match ("0123456789ABCDEF".toList).findIdx? (· == c) with
      | some n => some n
      | none => none

/-- Go `hex.DecodeString`: pairs of hex digits; odd length or an invalid
digit fails. -/
def hexDecode : List Char → Option (List Nat)
  | [] => some []
  | hi :: lo :: rest =>
      match hexDigit hi, hexDigit lo with
      | some a, some b =>
          match hexDecode rest with
          | some bs => some ((a * 16 + b) :: bs)
          | none => none
      | _, _ => none
  | [_] => none

end GoHex

namespace GoShopify

/-- Go's helper `func min(a, b int) int` from `rate_limiter.go`. -/
def goMin (a b : Int) : Int := if a < b then a else b

/-- Go's helper `func max(a, b int) int` from `rate_limiter.go`. -/
def goMax (a b : Int) : Int := if a > b then a else b

/-- `rateBucket` from `rate_limiter.go`.  Timestamps are modelled as whole
seconds (`Nat`); `tokens`, `maxTokens`, `refillRate` are Go `int`s,
modelled as `Int`. -/
structure rateBucket where
  tokens : Int
  lastRefill : Nat
  maxTokens : Int
  refillRate : Int
  window : Nat
  deriving Repr, DecidableEq

/-- Bucket creation inside `RateLimiter.getBucket`:
`refillRate: rl.maxRequests / int(rl.window.Seconds())` -- Go integer
division (both operands are positive in every call). -/
def newBucket (maxRequests : Int) (windowSecs : Nat) (now : Nat) : rateBucket :=
  { tokens := maxRequests
    lastRefill := now
    maxTokens := maxRequests
    refillRate := maxRequests / (windowSecs : Int)
    window := windowSecs }

/-- `rateBucket.refill`, with the current time passed explicitly.
`int(elapsed.Seconds())` truncates to whole seconds; with whole-second
timestamps this is `now - lastRefill`. -/
def refill (rb : rateBucket) (now : Nat) : rateBucket :=
  if (now : Int) - (rb.lastRefill : Int) ≤ 0 then rb
  else if ((now : Int) - (rb.lastRefill : Int)) * rb.refillRate > 0 then
    { rb with
        tokens := goMin (rb.tokens + ((now : Int) - (rb.lastRefill : Int)) * rb.refillRate)
                    rb.maxTokens
        lastRefill := now }
  else rb

/-- Result of `rateBucket.wait`. -/
inductive WaitRes
  | ok
  | ctxCancelled
  | rateLimitExceeded
  deriving Repr, DecidableEq

/-- `rateBucket.wait`.  `now1` is the clock at entry, `cancelled` tells
whether the caller's context fires before the retry timer, `now2` is the
clock when the timer fires.  The computed sleep duration (see
`waitTimeNs`) does not influence which branch is taken, only how long the
timer runs, so it is not threaded through here. -/
def wait (rb : rateBucket) (now1 : Nat) (cancelled : Bool) (now2 : Nat) :
    rateBucket × WaitRes :=
  if (refill rb now1).tokens > 0 then
    ({ refill rb now1 with tokens := (refill rb now1).tokens - 1 }, WaitRes.ok)
  else if cancelled then
    (refill rb now1, WaitRes.ctxCancelled)
  else if (refill (refill rb now1) now2).tokens > 0 then
    ({ refill (refill rb now1) now2 with
        tokens := (refill (refill rb now1) now2).tokens - 1 }, WaitRes.ok)
  else
    (refill (refill rb now1) now2, WaitRes.rateLimitExceeded)

/-- The sleep duration (nanoseconds) computed by `wait` before its single
recheck, for a positive `refillRate`:
`waitTime := time.Duration(float64(time.Second) / float64(rb.refillRate))`
followed by the 100 ms floor.  (For `refillRate = 0` the float division
yields `+Inf` and the conversion to `time.Duration` is
implementation-defined in Go, so that case is deliberately left out of
this definition's intended domain.) -/
def waitTimeNs (refillRate : Nat) : Nat :=
  if 1000000000 / refillRate < 100000000 then 100000000
  else 1000000000 / refillRate

/-- `rateBucket.updateFromHeaders`.  The `X-Shopify-Shop-Api-Call-Limit`
header is modelled by its `fmt.Sscanf(limitHeader, "%d/%d", ...)` parse
result: `none` when the header is missing or malformed, `some (used,
limit)` otherwise (`%d` accepts signed integers).  The trailing
`if rb.tokens == 0 { rb.lastRefill = time.Now() }` of the Go code, which
runs in both cases, is inlined into each branch of the parse match. -/
def updateFromHeaders (rb : rateBucket) (parsed : Option (Int × Int))
    (now : Nat) : rateBucket :=
  match parsed with
  | some (used, limit) =>
      if goMax 0 (limit - used) = 0 then
        { rb with tokens := goMax 0 (limit - used), maxTokens := limit,
                  lastRefill := now }
      else
        { rb with tokens := goMax 0 (limit - used), maxTokens := limit }
  | none =>
      if rb.tokens = 0 then { rb with lastRefill := now } else rb

/-- The defaults from `NewRateLimiter`: 35 requests per 60-second window. -/
def defaultMaxRequests : Int := 35

/-- Default window length in seconds (`time.Minute`). -/
def defaultWindowSecs : Nat := 60

/-- Refill as the specification words it (`Modelled from the spec:`
"tokens accrue linearly at `maxTokens / windowSeconds` per elapsed second
since last refill, capped at `maxTokens`").  Exact rational accrual over
`elapsed` seconds is `elapsed * maxTokens / windowSeconds` tokens. -/
def refillSpec (tokens maxTokens : Int) (windowSecs : Nat) (elapsed : Nat) : Int :=
  goMin (tokens + (elapsed : Int) * maxTokens / (windowSecs : Int)) maxTokens

/-- Bucket invariant from the spec: token count in `[0, maxTokens]`. -/
def TokenInv (rb : rateBucket) : Prop :=
  0 ≤ rb.tokens ∧ rb.tokens ≤ rb.maxTokens

end GoShopify

namespace GoShopify

/-- Field-stability of `refill`: only `tokens` and `lastRefill` change. -/
theorem refill_maxTokens (rb : rateBucket) (now : Nat) :
    (refill rb now).maxTokens = rb.maxTokens := by
  unfold refill
  split_ifs <;> rfl

theorem refill_refillRate (rb : rateBucket) (now : Nat) :
    (refill rb now).refillRate = rb.refillRate := by
  unfold refill
  split_ifs <;> rfl

/-- `refill` preserves the token invariant (for the non-negative refill
rates the code constructs). -/
theorem refill_tokenInv (rb : rateBucket) (now : Nat) (h : TokenInv rb)
    (_hr : 0 ≤ rb.refillRate) : TokenInv (refill rb now) := by
  obtain ⟨h0, h1⟩ := h
  unfold refill goMin TokenInv
  split_ifs with e1 e2 e3
  · exact ⟨h0, h1⟩
  · exact ⟨by dsimp only; omega, by dsimp only; omega⟩
  · exact ⟨by dsimp only; omega, by dsimp only; omega⟩
  · exact ⟨h0, h1⟩

/-- A default-configuration bucket that has been drained to zero tokens
(the state after `maxTokens` successful `wait` calls at the creation
instant). -/
def drainedDefaultBucket : rateBucket :=
  { newBucket defaultMaxRequests defaultWindowSecs 0 with tokens := 0 }

/-- C2: the default configuration (35 requests per 60-second window)
produces `refillRate = 35 / 60 = 0` under Go integer division, so
`refill` adds no token no matter how long the bucket sits idle (here: a
full hour), while the spec's linear accrual would have restored all 35
tokens.  The code's own intent ("refill refills tokens based on elapsed
time") is therefore never realised under the default configuration. -/
theorem C2_default_bucket_never_refills :
    (newBucket defaultMaxRequests defaultWindowSecs 0).refillRate = 0 ∧
    (refill drainedDefaultBucket 3600).tokens = 0 ∧
    refill drainedDefaultBucket 3600 = drainedDefaultBucket ∧
    refillSpec 0 defaultMaxRequests defaultWindowSecs 3600 = 35 := by
  refine ⟨by decide, by decide, by decide, by decide⟩

/-- C3 counterexample: on a drained default bucket with a live (not
cancelled) context, `wait` returns the "rate limit exceeded" error after
its single sleep-and-recheck cycle -- an outcome that is neither success
nor a context-cancellation error. -/
theorem C3_wait_third_outcome :
    (wait drainedDefaultBucket 3600 false 3700).2 ≠ WaitRes.ok ∧
    (wait drainedDefaultBucket 3600 false 3700).2 ≠ WaitRes.ctxCancelled ∧
    (wait drainedDefaultBucket 3600 false 3700).2 = WaitRes.rateLimitExceeded := by
  refine ⟨by decide, by decide, by decide⟩

/-- C3 amended: `wait` has exactly three outcomes -- success (consuming
exactly one token from a refilled state), context cancellation, or a
rate-limit-exceeded error after a single sleep-then-recheck cycle (it
does not loop); the sleep, when `refillRate` is positive, is floored at
100 ms. -/
theorem C3_wait_outcomes (rb : rateBucket) (now1 : Nat) (c : Bool) (now2 : Nat) :
    ((wait rb now1 c now2).2 = WaitRes.ok ∨
     (wait rb now1 c now2).2 = WaitRes.ctxCancelled ∨
     (wait rb now1 c now2).2 = WaitRes.rateLimitExceeded) ∧
    ((refill rb now1).tokens ≤ 0 ∧ c = true →
      (wait rb now1 c now2).2 = WaitRes.ctxCancelled) ∧
    ((wait rb now1 c now2).2 = WaitRes.ok →
      (wait rb now1 c now2).1.tokens + 1 = (refill rb now1).tokens ∨
      (wait rb now1 c now2).1.tokens + 1 = (refill (refill rb now1) now2).tokens) ∧
    (∀ rate : Nat, 0 < rate → 100000000 ≤ waitTimeNs rate) := by
  refine ⟨?_, ?_, ?_, ?_⟩
  · unfold wait
    split_ifs <;> simp
  · intro ⟨h1, h2⟩
    unfold wait
    rw [if_neg (by omega), if_pos (by simp [h2])]
  · intro hok
    unfold wait at hok ⊢
    split_ifs at hok ⊢ <;> simp_all
  · intro rate hrate
    unfold waitTimeNs
    split_ifs <;> omega

theorem C3_wait_outcomes_witness :
    (refill drainedDefaultBucket 0).tokens ≤ 0 ∧
    (wait drainedDefaultBucket 0 true 0).2 = WaitRes.ctxCancelled :=
  ⟨by decide, (C3_wait_outcomes drainedDefaultBucket 0 true 0).2.1 ⟨by decide, rfl⟩⟩

/-- Field characterisation of `updateFromHeaders` on a parsed header. -/
theorem updateFromHeaders_some_fields (rb : rateBucket) (used limit : Int)
    (now : Nat) :
    (updateFromHeaders rb (some (used, limit)) now).tokens = goMax 0 (limit - used) ∧
    (updateFromHeaders rb (some (used, limit)) now).maxTokens = limit ∧
    (updateFromHeaders rb (some (used, limit)) now).refillRate = rb.refillRate ∧
    (updateFromHeaders rb (some (used, limit)) now).window = rb.window := by
  simp only [updateFromHeaders]
  split_ifs <;> exact ⟨rfl, rfl, rfl, rfl⟩

/-- Field characterisation of `updateFromHeaders` on an absent or
malformed header. -/
theorem updateFromHeaders_none_fields (rb : rateBucket) (now : Nat) :
    (updateFromHeaders rb none now).tokens = rb.tokens ∧
    (updateFromHeaders rb none now).maxTokens = rb.maxTokens ∧
    (updateFromHeaders rb none now).refillRate = rb.refillRate ∧
    (updateFromHeaders rb none now).window = rb.window := by
  simp only [updateFromHeaders]
  split_ifs <;> exact ⟨rfl, rfl, rfl, rfl⟩

/-- C7 counterexample: with the metadata header absent (`parsed = none`)
and an empty bucket, `updateFromHeaders` still mutates the bucket: it
resets `lastRefill` to the current time (the trailing
`if rb.tokens == 0 { rb.lastRefill = time.Now() }` runs regardless of
whether the header was present). -/
theorem C7_absent_header_mutates_state :
    (updateFromHeaders drainedDefaultBucket none 100).lastRefill = 100 ∧
    drainedDefaultBucket.lastRefill = 0 ∧
    updateFromHeaders drainedDefaultBucket none 100 ≠ drainedDefaultBucket := by
  refine ⟨by decide, by decide, by decide⟩

/-- C7 amended: a well-formed "used/limit" header sets
`tokens := max(0, limit - used)` and `maxTokens := limit`; an absent or
malformed header leaves `tokens`, `maxTokens`, `refillRate` and `window`
unchanged -- but the bucket is left entirely unchanged only when its
token count is nonzero, for whenever the (possibly updated) token count
is zero `lastRefill` is reset to the current time. -/
theorem C7_updateFromHeaders_behaviour (rb : rateBucket) (used limit : Int)
    (now : Nat) :
    (updateFromHeaders rb (some (used, limit)) now).tokens = goMax 0 (limit - used) ∧
    (updateFromHeaders rb (some (used, limit)) now).maxTokens = limit ∧
    (updateFromHeaders rb none now).tokens = rb.tokens ∧
    (updateFromHeaders rb none now).maxTokens = rb.maxTokens ∧
    (updateFromHeaders rb none now).refillRate = rb.refillRate ∧
    (updateFromHeaders rb none now).window = rb.window ∧
    (rb.tokens ≠ 0 → updateFromHeaders rb none now = rb) ∧
    (rb.tokens = 0 → (updateFromHeaders rb none now).lastRefill = now) := by
  refine ⟨(updateFromHeaders_some_fields rb used limit now).1,
    (updateFromHeaders_some_fields rb used limit now).2.1,
    (updateFromHeaders_none_fields rb now).1,
    (updateFromHeaders_none_fields rb now).2.1,
    (updateFromHeaders_none_fields rb now).2.2.1,
    (updateFromHeaders_none_fields rb now).2.2.2, ?_, ?_⟩
  · intro hne
    simp only [updateFromHeaders]
    rw [if_neg hne]
  · intro hz
    simp only [updateFromHeaders]
    rw [if_pos hz]

theorem C7_updateFromHeaders_behaviour_witness :
    (newBucket 35 60 7).tokens ≠ 0 ∧
    updateFromHeaders (newBucket 35 60 7) none 9 = newBucket 35 60 7 ∧
    (updateFromHeaders drainedDefaultBucket none 9).lastRefill = 9 :=
  ⟨by decide,
   (C7_updateFromHeaders_behaviour (newBucket 35 60 7) 0 0 9).2.2.2.2.2.2.1 (by decide),
   (C7_updateFromHeaders_behaviour drainedDefaultBucket 0 0 9).2.2.2.2.2.2.2 (by decide)⟩

/-- C8 counterexample: `fmt.Sscanf(h, "%d/%d", ...)` accepts signed
integers, so a header parsing to `used = -5, limit = 40` drives the
token count to `max(0, 40 - (-5)) = 45` while `maxTokens` becomes 40:
the invariant `tokens ∈ [0, maxTokens]` is violated by
`updateFromHeaders`. -/
theorem C8_invariant_violated_by_negative_used :
    TokenInv (newBucket defaultMaxRequests defaultWindowSecs 0) ∧
    (updateFromHeaders (newBucket defaultMaxRequests defaultWindowSecs 0)
      (some (-5, 40)) 0).tokens = 45 ∧
    (updateFromHeaders (newBucket defaultMaxRequests defaultWindowSecs 0)
      (some (-5, 40)) 0).maxTokens = 40 ∧
    ¬ TokenInv (updateFromHeaders (newBucket defaultMaxRequests defaultWindowSecs 0)
      (some (-5, 40)) 0) := by
  refine ⟨⟨by decide, by decide⟩, by decide, by decide, ?_⟩
  intro ⟨_, h⟩
  rw [show (updateFromHeaders (newBucket defaultMaxRequests defaultWindowSecs 0)
      (some (-5, 40)) 0).tokens = 45 from by decide,
    show (updateFromHeaders (newBucket defaultMaxRequests defaultWindowSecs 0)
      (some (-5, 40)) 0).maxTokens = 40 from by decide] at h
  omega

/-- C8 amended: the token count stays within `[0, maxTokens]` across
bucket creation, `refill`, `wait` and `updateFromHeaders`, provided the
parsed "used/limit" values are non-negative (as they are in any
well-formed Shopify header); a `refillRate ≥ 0` side condition (true of
every bucket the code constructs) is carried for `refill`/`wait`. -/
theorem C8_token_invariant :
    (∀ maxRequests : Int, 0 ≤ maxRequests → ∀ w now,
      TokenInv (newBucket maxRequests w now)) ∧
    (∀ rb now, TokenInv rb → 0 ≤ rb.refillRate → TokenInv (refill rb now)) ∧
    (∀ rb now1 c now2, TokenInv rb → 0 ≤ rb.refillRate →
      TokenInv (wait rb now1 c now2).1) ∧
    (∀ rb used limit now, TokenInv rb → 0 ≤ used → 0 ≤ limit →
      TokenInv (updateFromHeaders rb (some (used, limit)) now)) ∧
    (∀ rb now, TokenInv rb → TokenInv (updateFromHeaders rb none now)) := by
  refine ⟨?_, fun rb now h hr => refill_tokenInv rb now h hr, ?_, ?_, ?_⟩
  · intro m hm w now
    exact ⟨hm, le_refl _⟩
  · intro rb now1 c now2 hinv hr
    have h1 : TokenInv (refill rb now1) := refill_tokenInv rb now1 hinv hr
    have hr1 : 0 ≤ (refill rb now1).refillRate := by
      rw [refill_refillRate]; exact hr
    have h2 : TokenInv (refill (refill rb now1) now2) :=
      refill_tokenInv (refill rb now1) now2 h1 hr1
    obtain ⟨a1, b1⟩ := h1
    obtain ⟨a2, b2⟩ := h2
    unfold wait
    split_ifs <;> unfold TokenInv <;> simp_all <;> omega
  · intro rb used limit now _ hu hl
    obtain ⟨f1, f2, _, _⟩ := updateFromHeaders_some_fields rb used limit now
    unfold TokenInv
    rw [f1, f2]
    clear f1 f2
    unfold goMax
    split_ifs <;> omega
  · intro rb now hinv
    obtain ⟨h0, h1⟩ := hinv
    unfold TokenInv
    simp only [updateFromHeaders]
    split_ifs <;> exact ⟨h0, h1⟩

theorem C8_token_invariant_witness :
    TokenInv (newBucket 35 60 0) ∧
    TokenInv (wait (newBucket 35 60 0) 0 false 1).1 ∧
    TokenInv (updateFromHeaders (newBucket 35 60 0) (some (12, 40)) 3) :=
  ⟨C8_token_invariant.1 35 (by decide) 60 0,
   C8_token_invariant.2.2.1 (newBucket 35 60 0) 0 false 1
     (C8_token_invariant.1 35 (by decide) 60 0) (by decide),
   C8_token_invariant.2.2.2.1 (newBucket 35 60 0) 12 40 3
     (C8_token_invariant.1 35 (by decide) 60 0) (by decide) (by decide)⟩

end GoShopify

namespace GoRetry

/-- Classification of the Go `error` value carried by an attempt
(`nil` is `Option.none` at the use sites).  `netTimeout` / `netTemporary`
are `net.Error` values with `Timeout()` resp. `Temporary()` true;
`ctxDeadlineExceeded` is `context.DeadlineExceeded` (which, in Go,
itself implements `net.Error` with both `Timeout()` and `Temporary()`
returning true); `ctxCanceled` is `context.Canceled` (a plain error);
`other` is any other non-`net.Error` error. -/
inductive GoErr
  | netTimeout
  | netTemporary
  | ctxDeadlineExceeded
  | ctxCanceled
  | other
  deriving Repr, DecidableEq

/-- Whether the Go type assertion `err.(net.Error)` succeeds. -/
def GoErr.isNetError : GoErr → Bool
  | .netTimeout => true
  | .netTemporary => true
  | .ctxDeadlineExceeded => true
  | .ctxCanceled => false
  | .other => false

/-- `netErr.Timeout() || netErr.Temporary()` for the `net.Error` cases. -/
def GoErr.timeoutOrTemporary : GoErr → Bool
  | .netTimeout => true
  | .netTemporary => true
  | .ctxDeadlineExceeded => true
  | .ctxCanceled => false
  | .other => false

/-- `isRetryableError` from the retry module: first the retryable status
code set is consulted, then `net.Error` timeout/temporary, then the
explicit `context` error check (unreachable for `DeadlineExceeded`,
which already matched the `net.Error` type assertion), else false. -/
def isRetryableError (err : Option GoErr) (statusCode : Nat)
    (retryableStatuses : List Nat) : Bool :=
  if retryableStatuses.contains statusCode then true
  else
    match err with
    | some e =>
        if e.isNetError then e.timeoutOrTemporary
        else if e = GoErr.ctxDeadlineExceeded ∨ e = GoErr.ctxCanceled then false
        else false
    | none => false

/-- `RetryConfig`; durations in nanoseconds, `BackoffFactor` is 2.0 in
the only configuration the code constructs, modelled as a natural
multiplier. -/
structure RetryConfig where
  maxRetries : Nat
  initialDelay : Nat
  maxDelay : Nat
  backoffFactor : Nat
  retryableErrors : List Nat
  deriving Repr, DecidableEq

/-- `DefaultRetryConfig()`. -/
def DefaultRetryConfig : RetryConfig :=
  { maxRetries := 3
    initialDelay := 100000000
    maxDelay := 5000000000
    backoffFactor := 2
    retryableErrors := [429, 500, 502, 503, 504] }

/-- One attempt's observable outcome: the HTTP status code (0 when the
response was nil) and the returned error. -/
structure AttemptRes where
  status : Nat
  err : Option GoErr
  deriving Repr, DecidableEq

/-- Final outcome of `ExecuteWithRetry`. -/
inductive ExecRes
  | done (status : Nat) (err : Option GoErr)
  | ctxErr
  | exhausted (lastErr : Option GoErr)
  deriving Repr, DecidableEq

/-- Observable trace of `ExecuteWithRetry`: result, number of calls made
to the attempt function, and total backoff sleep in nanoseconds. -/
structure ExecOut where
  result : ExecRes
  attemptsMade : Nat
  totalSleep : Nat
  deriving Repr, DecidableEq

/-- Loop body of `ExecuteWithRetry`.  `fn k` is the outcome of the k-th
call of the attempt function (0-based); `cancelled k` tells whether
`ctx.Done()` fires during the backoff sleep preceding the k-th call.
`fuel` bounds the recursion and is always at least the remaining
allowed attempts. -/
def execLoop (cfg : RetryConfig) (fn : Nat → AttemptRes) (cancelled : Nat → Bool) :
    Nat → Nat → Nat → Nat → ExecOut
  | 0, attempt, _, slept =>
      ExecOut.mk (ExecRes.exhausted (fn (attempt - 1)).err) attempt slept
  | fuel + 1, attempt, delay, slept =>
      if attempt > 0 ∧ cancelled attempt then
        ExecOut.mk ExecRes.ctxErr attempt slept
      else
        -- sleep (when attempt > 0), then advance the backoff delay
        if (fn attempt).err = none ∧
            isRetryableError (fn attempt).err (fn attempt).status
              cfg.retryableErrors = false then
          ExecOut.mk (ExecRes.done (fn attempt).status (fn attempt).err)
            (attempt + 1)
            (if attempt > 0 then slept + delay else slept)
        else if attempt ≥ cfg.maxRetries then
          ExecOut.mk (ExecRes.exhausted (fn attempt).err) (attempt + 1)
            (if attempt > 0 then slept + delay else slept)
        else
          execLoop cfg fn cancelled fuel (attempt + 1)
            (if attempt > 0 then
               if delay * cfg.backoffFactor > cfg.maxDelay then cfg.maxDelay
               else delay * cfg.backoffFactor
             else delay)
            (if attempt > 0 then slept + delay else slept)

/-- `ExecuteWithRetry` from the retry module, as a pure function over the
attempt outcomes and the cancellation observations. -/
def ExecuteWithRetry (cfg : RetryConfig) (fn : Nat → AttemptRes)
    (cancelled : Nat → Bool) : ExecOut :=
  execLoop cfg fn cancelled (cfg.maxRetries + 1) 0 cfg.initialDelay 0

/-- C4: an attempt function that always fails with a plain non-retryable
error (`errors.New("boom")`: not a `net.Error`, not a context error,
status 0) is nevertheless retried to exhaustion under the default
policy -- four attempts and 100+200+400 ms of backoff sleep -- because
the early-return test `err == nil && !isRetryableError(...)` only fires
when the error is nil, contradicting both the spec ("non-retryable
failures return immediately without delay") and the code's own comment
on that branch ("Success or non-retryable error"). -/
theorem C4_non_retryable_error_is_retried :
    isRetryableError (some GoErr.other) 0 DefaultRetryConfig.retryableErrors
      = false ∧
    ExecuteWithRetry DefaultRetryConfig (fun _ => AttemptRes.mk 0 (some GoErr.other))
      (fun _ => false)
      = ExecOut.mk (ExecRes.exhausted (some GoErr.other)) 4 700000000 ∧
    ExecuteWithRetry DefaultRetryConfig (fun _ => AttemptRes.mk 400 none)
      (fun _ => false)
      = ExecOut.mk (ExecRes.done 400 none) 1 0 := by
  refine ⟨by decide, by decide, by decide⟩

end GoRetry

namespace GoShopify

/-- Error classes returned by the webhook signature verifiers. -/
inductive VerifyErr
  | missingHeader
  | decodeFailed
  | mismatch
  deriving Repr, DecidableEq

/-- `WebhookVerifier.Verify` from `webhook_verifier.go`: empty-header
check, HMAC-SHA256 over the raw body, base64 decoding of the header
(no hex fallback in this variant), then `hmac.Equal`.  The HMAC
primitive (`crypto/hmac` + `crypto/sha256`, an external library) is a
parameter `hm : secret → message → mac`; `hmac.Equal` is a
constant-time byte comparison, whose functional content is list
equality. -/
def WebhookVerifierVerify (hm : List Nat → List Nat → List Nat)
    (apiSecret body : List Nat) (hmacHeader : String) : Option VerifyErr :=
  if hmacHeader = "" then some VerifyErr.missingHeader
  else
    match GoB64.decode4 hmacHeader.toList with
    | none => some VerifyErr.decodeFailed
    | some received =>
        if received = hm apiSecret body then none else some VerifyErr.mismatch

/-- `VerifyWebhookHMAC` from the shopify package (part_009): like
`WebhookVerifier.Verify` but with hex decoding as a fallback when base64
decoding of the header fails; only when both decodings fail does it
return the decode error. -/
def VerifyWebhookHMAC (hm : List Nat → List Nat → List Nat)
    (body : List Nat) (hmacHeader : String) (apiSecret : List Nat) :
    Option VerifyErr :=
  if hmacHeader = "" then some VerifyErr.missingHeader
  else
    match GoB64.decode4 hmacHeader.toList with
    | some received =>
        if received = hm apiSecret body then none else some VerifyErr.mismatch
    | none =>
        match GoHex.hexDecode hmacHeader.toList with
        | some received =>
            if received = hm apiSecret body then none else some VerifyErr.mismatch
        | none => some VerifyErr.decodeFailed

/-- `encode3` maps nonempty byte lists to nonempty character lists. -/
theorem encode3_ne_nil (bs : List Nat) (h : bs ≠ []) : GoB64.encode3 bs ≠ [] := by
  match bs with
  | [] => exact absurd rfl h
  | [a] => simp [GoB64.encode3]
  | [a, b] => simp [GoB64.encode3]
  | a :: b :: c :: rest => simp [GoB64.encode3]

/-- C5: `VerifyWebhookHMAC` recomputes the HMAC of the exact raw body
and compares it against the base64-decoded header, falling back to hex
decoding when base64 decoding fails; an empty (missing) header is an
error, failure of both decodings is a decode error (never a silent
pass), a comparison mismatch is an error, and a correctly computed
base64-encoded signature verifies.  (The constant-time nature of
`hmac.Equal` is a timing property outside this embedding; its functional
content -- byte-list equality -- is what is modelled.) -/
theorem C5_VerifyWebhookHMAC_behaviour (hm : List Nat → List Nat → List Nat)
    (body : List Nat) (header : String) (secret : List Nat) :
    (header = "" →
      VerifyWebhookHMAC hm body header secret = some VerifyErr.missingHeader) ∧
    (header ≠ "" → GoB64.decode4 header.toList = none →
      GoHex.hexDecode header.toList = none →
      VerifyWebhookHMAC hm body header secret = some VerifyErr.decodeFailed) ∧
    (∀ m, header ≠ "" → GoB64.decode4 header.toList = some m →
      (VerifyWebhookHMAC hm body header secret = none ↔ m = hm secret body)) ∧
    (∀ m, header ≠ "" → GoB64.decode4 header.toList = some m →
      m ≠ hm secret body →
      VerifyWebhookHMAC hm body header secret = some VerifyErr.mismatch) ∧
    (∀ m, header ≠ "" → GoB64.decode4 header.toList = none →
      GoHex.hexDecode header.toList = some m →
      (VerifyWebhookHMAC hm body header secret = none ↔ m = hm secret body)) ∧
    (∀ m, header ≠ "" → GoB64.decode4 header.toList = none →
      GoHex.hexDecode header.toList = some m → m ≠ hm secret body →
      VerifyWebhookHMAC hm body header secret = some VerifyErr.mismatch) ∧
    ((∀ x ∈ hm secret body, x < 256) → hm secret body ≠ [] →
      VerifyWebhookHMAC hm body (String.mk (GoB64.encode3 (hm secret body)))
        secret = none) := by
  refine ⟨?_, ?_, ?_, ?_, ?_, ?_, ?_⟩
  · intro h
    simp [VerifyWebhookHMAC, h]
  · intro h hb hx
    simp only [VerifyWebhookHMAC, if_neg h, hb, hx]
  · intro m h hb
    simp only [VerifyWebhookHMAC, if_neg h, hb]
    split_ifs with he
    · simp [he]
    · simp [he]
  · intro m h hb hne
    simp only [VerifyWebhookHMAC, if_neg h, hb]
    rw [if_neg hne]
  · intro m h hb hx
    simp only [VerifyWebhookHMAC, if_neg h, hb, hx]
    split_ifs with he
    · simp [he]
    · simp [he]
  · intro m h hb hx hne
    simp only [VerifyWebhookHMAC, if_neg h, hb, hx]
    rw [if_neg hne]
  · intro hbound hne
    have hmk : String.mk (GoB64.encode3 (hm secret body)) ≠ "" := by
      intro hcontra
      have : GoB64.encode3 (hm secret body) = [] := by
        have := congrArg String.toList hcontra
        simpa using this
      exact encode3_ne_nil _ hne this
    have hdec : GoB64.decode4 (GoB64.encode3 (hm secret body))
        = some (hm secret body) := GoB64.decode4_encode3 _ hbound
    simp [VerifyWebhookHMAC, if_neg hmk, hdec]

theorem C5_VerifyWebhookHMAC_behaviour_witness :
    GoB64.decode4 ("AA==").toList = some [0] ∧
    VerifyWebhookHMAC (fun _ _ => [0]) [] "AA==" [] = none ∧
    VerifyWebhookHMAC (fun _ _ => [0]) [] "" [] = some VerifyErr.missingHeader :=
  ⟨by decide,
   ((C5_VerifyWebhookHMAC_behaviour (fun _ _ => [0]) [] "AA==" []).2.2.1 [0]
     (by decide) (by decide)).mpr rfl,
   (C5_VerifyWebhookHMAC_behaviour (fun _ _ => [0]) [] "" []).1 rfl⟩

end GoShopify

namespace GoShopify

/-- The inbound webhook HTTP handler (`webhookHandler` in the main
package), as a function from the request's observable inputs to the HTTP
status code written: 400 for a missing `{shop}` URL parameter, missing
`X-Shopify-Topic` header, or a body read failure; 401 when
`WebhookVerifier.Verify` fails on the `X-Shopify-Hmac-SHA256` header
(including the empty header, which `Verify` reports as missing); 500
when `ProcessWebhook` fails (its only failure mode is the repository's
`LogWebhook` write, modelled by `processOk` -- no topic routing happens
on this path); 200 otherwise. -/
def webhookHandler (hm : List Nat → List Nat → List Nat) (secret : List Nat)
    (shopParam topic : String) (readOk : Bool) (body : List Nat)
    (hmacHeader : String) (processOk : Bool) : Nat :=
  if shopParam = "" then 400
  else if topic = "" then 400
  else if readOk = false then 400
  else
    match WebhookVerifierVerify hm secret body hmacHeader with
    | some _ => 401
    | none => if processOk then 200 else 500

/-- C6 counterexample: a request with the topic header present but the
signature header absent is rejected with 401 (it flows through signature
verification, which fails on the empty header), not with a 400-class
status as the claim groups it; the missing-topic case, by contrast, is
rejected with 400. -/
theorem C6_missing_signature_is_401 :
    webhookHandler (fun _ _ => [0]) [] "shop1" "orders/create" true [] "" true
      = 401 ∧
    webhookHandler (fun _ _ => [0]) [] "shop1" "" true [] "" true = 400 ∧
    (401 : Nat) ≠ 400 := by
  refine ⟨by decide, by decide, by decide⟩

/-- C6 amended: a missing topic header is rejected with 400; a missing
signature header is treated as a verification failure and rejected with
401; a present signature that fails verification is rejected with 401;
and a verified request is accepted with 200 whatever its topic (topic
routing does not occur on this path -- `ProcessWebhook` only logs the
event -- so an unrecognized topic cannot cause an error), provided the
webhook log write succeeds. -/
theorem C6_webhookHandler_statuses (hm : List Nat → List Nat → List Nat)
    (secret : List Nat) (shopParam topic : String) (readOk : Bool)
    (body : List Nat) (hmacHeader : String) (processOk : Bool) :
    (shopParam ≠ "" → topic = "" →
      webhookHandler hm secret shopParam topic readOk body hmacHeader processOk
        = 400) ∧
    (shopParam ≠ "" → topic ≠ "" → readOk = true → hmacHeader = "" →
      webhookHandler hm secret shopParam topic readOk body hmacHeader processOk
        = 401) ∧
    (∀ e, shopParam ≠ "" → topic ≠ "" → readOk = true →
      WebhookVerifierVerify hm secret body hmacHeader = some e →
      webhookHandler hm secret shopParam topic readOk body hmacHeader processOk
        = 401) ∧
    (shopParam ≠ "" → topic ≠ "" → readOk = true →
      WebhookVerifierVerify hm secret body hmacHeader = none → processOk = true →
      webhookHandler hm secret shopParam topic readOk body hmacHeader processOk
        = 200) := by
  refine ⟨?_, ?_, ?_, ?_⟩
  · intro hs ht
    simp [webhookHandler, hs, ht]
  · intro hs ht hr hh
    simp [webhookHandler, hs, ht, hr, WebhookVerifierVerify, hh]
  · intro e hs ht hr hv
    simp [webhookHandler, hs, ht, hr, hv]
  · intro hs ht hr hv hp
    simp [webhookHandler, hs, ht, hr, hv, hp]

theorem C6_webhookHandler_statuses_witness :
    webhookHandler (fun _ _ => [0]) [] "shop1" "" true [] "AA==" true = 400 ∧
    webhookHandler (fun _ _ => [0]) [] "shop1" "orders/create" true [] "AA==" true
      = 200 :=
  ⟨(C6_webhookHandler_statuses (fun _ _ => [0]) [] "shop1" "" true [] "AA==" true).1
     (by decide) rfl,
   (C6_webhookHandler_statuses (fun _ _ => [0]) [] "shop1" "orders/create" true []
     "AA==" true).2.2.2 (by decide) (by decide) rfl (by decide) rfl⟩

end GoShopify

namespace GoEncryption

/-- Error classes of the encryption service (`encryption` package). -/
inductive CipherErr
  | keySize
  | cipherCreateFailed
  | decodeFailed
  | tooShort
  | openFailed
  deriving Repr, DecidableEq

/-- `Service` holds the symmetric key; `[]byte(key)` in Go is the UTF-8
byte sequence of the key string, modelled here directly as the byte
list. -/
structure Service where
  key : List Nat
  deriving Repr, DecidableEq

/-- `crypto/aes.NewCipher` (Go standard library, external collaborator)
succeeds exactly for 16-, 24- or 32-byte keys, else returns
`KeySizeError`. -/
def aesValidKeyLen (n : Nat) : Bool := n = 16 || n = 24 || n = 32

/-- `encryption.NewService`: the key must be exactly 32 bytes
(AES-256); a wrong length is a construction-time error. -/
def NewService (key : List Nat) : Except CipherErr Service :=
  if key.length = 32 then Except.ok (Service.mk key)
  else Except.error CipherErr.keySize

/-- `Service.Encrypt` for a fixed AEAD primitive `gcmSeal` (the
`cipher.AEAD.Seal` of AES-GCM, an external library, passed as a
parameter) and the random `nonce` drawn inside the Go function passed
explicitly.  `gcm.Seal(nonce, nonce, plaintext, nil)` appends the sealed
bytes to the nonce; the result is base64-encoded. -/
def Encrypt (gcmSeal : List Nat → List Nat → List Nat → List Nat)
    (svc : Service) (nonce plaintext : List Nat) : Except CipherErr String :=
  if aesValidKeyLen svc.key.length = false then
    Except.error CipherErr.cipherCreateFailed
  else
    Except.ok (String.mk (GoB64.encode3 (nonce ++ gcmSeal svc.key nonce plaintext)))

/-- `Service.Decrypt` for the matching `gcmOpen` (`cipher.AEAD.Open`) and
nonce size: base64-decode, split off the nonce prefix (after the
"ciphertext too short" guard), then authenticated decryption. -/
def Decrypt (gcmOpen : List Nat → List Nat → List Nat → Option (List Nat))
    (nonceSize : Nat) (svc : Service) (ciphertext : String) :
    Except CipherErr (List Nat) :=
  match GoB64.decode4 ciphertext.toList with
  | none => Except.error CipherErr.decodeFailed
  | some data =>
      if aesValidKeyLen svc.key.length = false then
        Except.error CipherErr.cipherCreateFailed
      else if data.length < nonceSize then
        Except.error CipherErr.tooShort
      else
        match gcmOpen svc.key (data.take nonceSize) (data.drop nonceSize) with
        | some plaintext => Except.ok plaintext
        | none => Except.error CipherErr.openFailed

/-- C9: constructing the service fails exactly when the key is not 32
bytes; once construction succeeded, `Encrypt` always succeeds (no
per-call key-length failure is possible) and `Decrypt` undoes `Encrypt`
exactly, for any AEAD primitive satisfying its open-after-seal contract
on the used key and nonce (the nonce having the AEAD's nonce size, and
all produced bytes being bytes). -/
theorem C9_cipher_roundtrip
    (gcmSeal : List Nat → List Nat → List Nat → List Nat)
    (gcmOpen : List Nat → List Nat → List Nat → Option (List Nat))
    (nonceSize : Nat) (key : List Nat) (svc : Service) (nonce pt : List Nat) :
    (key.length = 32 → NewService key = Except.ok (Service.mk key)) ∧
    (key.length ≠ 32 → NewService key = Except.error CipherErr.keySize) ∧
    (NewService key = Except.ok svc →
      Encrypt gcmSeal svc nonce pt =
        Except.ok (String.mk (GoB64.encode3 (nonce ++ gcmSeal svc.key nonce pt)))) ∧
    (NewService key = Except.ok svc → nonce.length = nonceSize →
      gcmOpen svc.key nonce (gcmSeal svc.key nonce pt) = some pt →
      (∀ x ∈ nonce ++ gcmSeal svc.key nonce pt, x < 256) →
      Decrypt gcmOpen nonceSize svc
        (String.mk (GoB64.encode3 (nonce ++ gcmSeal svc.key nonce pt)))
        = Except.ok pt) := by
  have hok : NewService key = Except.ok svc → svc.key = key ∧ key.length = 32 := by
    intro h
    unfold NewService at h
    split_ifs at h with h32
    · cases h
      exact ⟨rfl, h32⟩
  refine ⟨?_, ?_, ?_, ?_⟩
  · intro h32
    unfold NewService
    rw [if_pos h32]
  · intro h32
    unfold NewService
    rw [if_neg h32]
  · intro h
    obtain ⟨hk, h32⟩ := hok h
    unfold Encrypt
    rw [if_neg (by simp [aesValidKeyLen, hk, h32])]
  · intro h hn hopen hbound
    obtain ⟨hk, h32⟩ := hok h
    have hdec : GoB64.decode4
        (String.mk (GoB64.encode3 (nonce ++ gcmSeal svc.key nonce pt))).toList
        = some (nonce ++ gcmSeal svc.key nonce pt) :=
      GoB64.decode4_encode3 _ hbound
    unfold Decrypt
    rw [hdec]
    dsimp only
    rw [if_neg (by simp [aesValidKeyLen, hk, h32])]
    rw [if_neg (by simp [hn])]
    have htake : (nonce ++ gcmSeal svc.key nonce pt).take nonceSize = nonce := by
      rw [← hn]
      exact List.take_left nonce _
    have hdrop : (nonce ++ gcmSeal svc.key nonce pt).drop nonceSize
        = gcmSeal svc.key nonce pt := by
      rw [← hn]
      exact List.drop_left nonce _
    rw [htake, hdrop, hopen]

theorem C9_cipher_roundtrip_witness :
    NewService (List.replicate 32 7) = Except.ok (Service.mk (List.replicate 32 7)) ∧
    Decrypt (fun _ _ c => some c) 12 (Service.mk (List.replicate 32 7))
      (String.mk (GoB64.encode3 (List.replicate 12 1 ++
        (fun (_ _ p : List Nat) => p) (List.replicate 32 7) (List.replicate 12 1)
          [4, 5, 6])))
      = Except.ok [4, 5, 6] :=
  ⟨(C9_cipher_roundtrip (fun _ _ p => p) (fun _ _ c => some c) 12
      (List.replicate 32 7) (Service.mk (List.replicate 32 7))
      (List.replicate 12 1) [4, 5, 6]).1 (by decide),
   (C9_cipher_roundtrip (fun _ _ p => p) (fun _ _ c => some c) 12
      (List.replicate 32 7) (Service.mk (List.replicate 32 7))
      (List.replicate 12 1) [4, 5, 6]).2.2.2
     rfl (by decide) rfl (by decide)⟩

end GoEncryption

namespace GoDispatcher

/-- `domain.WebhookEvent` (the fields the dispatcher reads). -/
structure WebhookEvent where
  topic : String
  shop : String
  payload : List Nat
  verified : Bool

/-- `domain.WebhookHandler`: the capability pair
`{CanHandle(topic) bool, Handle(ctx, event) error}`.  `handle` is the
handler's (pure) processing outcome on an event. -/
structure WebhookHandler where
  canHandle : String → Bool
  handle : WebhookEvent → Except String Unit

/-- The fan-out loop of `WebhookDispatcher.Dispatch` over the snapshot
of the handler list, paired with each handler's registration index: a
handler is invoked iff its `canHandle` matches the topic; an error
outcome is logged and iteration continues (`continue`), so the trace
records every invocation with its outcome, in registration order. -/
def dispatchLoop : List (Nat × WebhookHandler) → WebhookEvent →
    List (Nat × Except String Unit)
  | [], _ => []
  | (i, h) :: rest, e =>
      if h.canHandle e.topic then (i, h.handle e) :: dispatchLoop rest e
      else dispatchLoop rest e

/-- `WebhookDispatcher.Dispatch`: fan-out over the snapshot, returning
the invocation trace and the dispatcher's return value, which is `nil`
on every path (zero matching handlers and handler failures included). -/
def Dispatch (handlers : List WebhookHandler) (e : WebhookEvent) :
    List (Nat × Except String Unit) × Except String Unit :=
  (dispatchLoop handlers.enum e, Except.ok ())

theorem dispatchLoop_eq (l : List (Nat × WebhookHandler)) (e : WebhookEvent) :
    dispatchLoop l e =
      (l.filter (fun p => p.2.canHandle e.topic)).map
        (fun p => (p.1, p.2.handle e)) := by
  induction l with
  | nil => rfl
  | cons p rest ih =>
      obtain ⟨i, h⟩ := p
      by_cases hc : h.canHandle e.topic
      · simp [dispatchLoop, hc, List.filter_cons, ih]
      · simp [dispatchLoop, hc, List.filter_cons, ih]

/-- C10: `Dispatch` never fails (it returns success even when a handler
fails and when zero handlers match), and its invocation trace is exactly
the registered handlers whose `canHandle` matches the event's topic, in
registration order, each paired with its own processing outcome -- in
particular a handler's error does not remove any later matching handler
from the trace. -/
theorem C10_dispatch_isolation (handlers : List WebhookHandler)
    (e : WebhookEvent) :
    (Dispatch handlers e).2 = Except.ok () ∧
    (Dispatch handlers e).1 =
      (handlers.enum.filter (fun p => p.2.canHandle e.topic)).map
        (fun p => (p.1, p.2.handle e)) ∧
    (∀ i h, (i, h) ∈ handlers.enum → h.canHandle e.topic = true →
      (i, h.handle e) ∈ (Dispatch handlers e).1) := by
  refine ⟨rfl, dispatchLoop_eq handlers.enum e, ?_⟩
  intro i h hmem hc
  show (i, h.handle e) ∈ dispatchLoop handlers.enum e
  rw [dispatchLoop_eq]
  exact List.mem_map.mpr ⟨(i, h), List.mem_filter.mpr ⟨hmem, by simp [hc]⟩, rfl⟩

theorem C10_dispatch_isolation_witness :
    (Dispatch
      [WebhookHandler.mk (fun t => t == "a") (fun _ => Except.error "boom"),
       WebhookHandler.mk (fun t => t == "a" || t == "b") (fun _ => Except.ok ())]
      (WebhookEvent.mk "a" "s" [] true)).2 = Except.ok () ∧
    (Dispatch
      [WebhookHandler.mk (fun t => t == "a") (fun _ => Except.error "boom"),
       WebhookHandler.mk (fun t => t == "a" || t == "b") (fun _ => Except.ok ())]
      (WebhookEvent.mk "a" "s" [] true)).1 =
      [(0, Except.error "boom"), (1, Except.ok ())] ∧
    (Dispatch ([] : List WebhookHandler) (WebhookEvent.mk "c" "s" [] true)).1 = [] :=
  ⟨(C10_dispatch_isolation _ _).1,
   by rw [(C10_dispatch_isolation _ _).2.1]; rfl,
   by rw [(C10_dispatch_isolation _ _).2.1]; rfl⟩

end GoDispatcher

namespace GoPool

/-- Errors `ClientPool.GetClient` can return: the construction error
(`"failed to create Shopify client"`) and the fallback error of a waiter
that finds neither a client nor an error
(`"failed to get or create client for tenant %s"`). -/
inductive PoolErr
  | constructionFailed
  | getOrCreateFailed
  deriving Repr, DecidableEq

/-- A caller's final outcome; clients are identified by the construction
counter value at their creation, so two distinct constructions yield
clients that are not reference-equal. -/
inductive GetRes
  | ok (client : Nat)
  | err (e : PoolErr)
  deriving Repr, DecidableEq

/-- State of one `sync.Once`: `running` records which caller executes
the body (the owner of `Once.Do`'s internal lock). -/
inductive OnceSt
  | idle
  | running (owner : Nat)
  | done
  deriving Repr, DecidableEq

/-- Program counter of one `GetClient` caller.  Each value performs one
atomic access to the shared pool state:
`fastPath` = `p.clients.Load` at entry; `loadOnce` = `p.onceMap.LoadOrStore`;
`tryOnce` = entering `once.Do` (skip when done, block while another
caller runs the body, else acquire); `bodyCheck` = the double-check
`p.clients.Load` inside the body; `bodyConstruct` = `NewClientWithOptions`
plus the cache store / once cleanup (no other caller's shared access can
be interleaved between these, as the once is held); `post` = the code
after `once.Do` (local error/client tests and the final cache `Load`). -/
inductive PC
  | fastPath
  | loadOnce
  | tryOnce
  | bodyCheck
  | bodyConstruct
  | post
  | finished
  deriving Repr, DecidableEq

/-- Local state of one caller of `GetClient`. -/
structure CallerSt where
  pc : PC
  myOnce : Option Nat
  localClient : Option Nat
  localErr : Option PoolErr
  result : Option GetRes
  deriving Repr, DecidableEq

/-- Shared state of the `ClientPool`: the client cache (`sync.Map`,
single tenant key), the once map (`sync.Map`, same key) holding the id
of the currently mapped `sync.Once`, the states of all onces ever
allocated (indexed by id; Go callers keep pointers to a deleted once,
so deleted onces live on here), and the number of constructions
performed. -/
structure PoolSt where
  cache : Option Nat
  onceMap : Option Nat
  onces : List OnceSt
  constructCount : Nat
  deriving Repr, DecidableEq

/-- The whole system: pool plus one caller state per caller id. -/
structure Sys where
  pool : PoolSt
  callers : Nat → CallerSt

def initCaller : CallerSt :=
  { pc := PC.fastPath, myOnce := none, localClient := none,
    localErr := none, result := none }

def initSys : Sys :=
  { pool := { cache := none, onceMap := none, onces := [], constructCount := 0 }
    callers := fun _ => initCaller }

/-- Status of the once with id 0 (the only once in a no-failure run). -/
def st0 (p : PoolSt) : OnceSt := p.onces.getD 0 OnceSt.idle

/-- One atomic step of caller `i`.  `fails k` tells whether the k-th
construction (`NewClientWithOptions`) returns nil. -/
def stepCaller (fails : Nat → Bool) (i : Nat) (p : PoolSt) (c : CallerSt) :
    PoolSt × CallerSt :=
  match c.pc with
  | PC.fastPath =>
      match p.cache with
      | some cl => (p, { c with pc := PC.finished, result := some (GetRes.ok cl) })
      | none => (p, { c with pc := PC.loadOnce })
  | PC.loadOnce =>
      match p.onceMap with
      | some o => (p, { c with pc := PC.tryOnce, myOnce := some o })
      | none =>
          ({ p with onceMap := some p.onces.length,
                    onces := p.onces ++ [OnceSt.idle] },
           { c with pc := PC.tryOnce, myOnce := some p.onces.length })
  | PC.tryOnce =>
      match c.myOnce with
      | none => (p, c)
      | some o =>
          match p.onces.getD o OnceSt.idle with
          | OnceSt.done => (p, { c with pc := PC.post })
          | OnceSt.running _ => (p, c)
          | OnceSt.idle =>
              ({ p with onces := p.onces.set o (OnceSt.running i) },
               { c with pc := PC.bodyCheck })
  | PC.bodyCheck =>
      match c.myOnce with
      | none => (p, c)
      | some o =>
          match p.cache with
          | some cl =>
              ({ p with onces := p.onces.set o OnceSt.done },
               { c with localClient := some cl, pc := PC.post })
          | none => (p, { c with pc := PC.bodyConstruct })
  | PC.bodyConstruct =>
      match c.myOnce with
      | none => (p, c)
      | some o =>
          if fails p.constructCount then
            ({ p with constructCount := p.constructCount + 1,
                      onceMap := none,
                      onces := p.onces.set o OnceSt.done },
             { c with localErr := some PoolErr.constructionFailed, pc := PC.post })
          else
            ({ p with constructCount := p.constructCount + 1,
                      cache := some p.constructCount,
                      onces := p.onces.set o OnceSt.done },
             { c with localClient := some p.constructCount, pc := PC.post })
  | PC.post =>
      match c.localErr with
      | some e => (p, { c with pc := PC.finished, result := some (GetRes.err e) })
      | none =>
          match c.localClient with
          | some cl => (p, { c with pc := PC.finished, result := some (GetRes.ok cl) })
          | none =>
              match p.cache with
              | some cl =>
                  (p, { c with pc := PC.finished, result := some (GetRes.ok cl) })
              | none =>
                  (p,
                   { c with
                     pc := PC.finished
                     result := some (GetRes.err PoolErr.getOrCreateFailed) })
  | PC.finished => (p, c)

/-- Interleaving: the scheduled caller takes its next atomic step. -/
def step (fails : Nat → Bool) (s : Sys) (i : Nat) : Sys :=
  { pool := (stepCaller fails i s.pool (s.callers i)).1
    callers := fun j =>
      if j = i then (stepCaller fails i s.pool (s.callers i)).2 else s.callers j }

/-- Run a schedule (list of caller ids) from the initial state. -/
def run (fails : Nat → Bool) (sched : List Nat) : Sys :=
  sched.foldl (step fails) initSys

/-- A constructor whose first invocation fails and whose later
invocations succeed (`NewClientWithOptions` is not part of the provided
sources; per the spec, construction can fail on malformed credentials
and a later attempt may succeed). -/
def failsFirst : Nat → Bool := fun k => k == 0

/-- The schedule of the counterexample run: callers 0 and 1 race, caller
0 wins the once and its construction fails; caller 1 was already waiting
on the once. -/
def raceSched : List Nat := [0, 1, 0, 1, 0, 1, 0, 0, 1, 0, 1]

/-- C1 counterexample: when the single construction fails, the
constructing caller returns the construction error while the concurrent
caller that waited on the same `sync.Once` returns the distinct generic
"failed to get or create client" error -- the callers do not receive the
identical error.  The failure is not cached (`cache = none`,
`onceMap` cleared), and a subsequent caller (id 2) performs a fresh,
second construction and obtains a client. -/
theorem C1_waiter_gets_different_error :
    ((run failsFirst raceSched).callers 0).result
      = some (GetRes.err PoolErr.constructionFailed) ∧
    ((run failsFirst raceSched).callers 1).result
      = some (GetRes.err PoolErr.getOrCreateFailed) ∧
    PoolErr.constructionFailed ≠ PoolErr.getOrCreateFailed ∧
    (run failsFirst raceSched).pool.constructCount = 1 ∧
    (run failsFirst raceSched).pool.cache = none ∧
    (run failsFirst raceSched).pool.onceMap = none ∧
    ((run failsFirst (raceSched ++ [2, 2, 2, 2, 2, 2])).callers 2).result
      = some (GetRes.ok 1) ∧
    (run failsFirst (raceSched ++ [2, 2, 2, 2, 2, 2])).pool.constructCount = 2 := by
  refine ⟨rfl, rfl, by decide, rfl, rfl, rfl, rfl, rfl⟩

end GoPool

namespace GoPool

/-- The always-succeeding constructor (the success case of C1). -/
def noFail : Nat → Bool := fun _ => false

/-- Per-caller invariant of the no-failure system.  In a no-failure run
only once id 0 is ever allocated, the single constructed client has id
0, and every delivered result is `ok 0`. -/
structure CInvP (p : PoolSt) (c : CallerSt) (i : Nat) : Prop where
  myOnce0 : ∀ o, c.myOnce = some o → o = 0 ∧ p.onces.length = 1
  pcOnce : c.pc = PC.tryOnce ∨ c.pc = PC.bodyCheck ∨ c.pc = PC.bodyConstruct →
    c.myOnce = some 0
  bodyRunning : c.pc = PC.bodyCheck ∨ c.pc = PC.bodyConstruct →
    st0 p = OnceSt.running i
  constructPre : c.pc = PC.bodyConstruct → p.cache = none ∧ p.constructCount = 0
  errNone : c.localErr = none
  clientZero : ∀ cl, c.localClient = some cl → cl = 0 ∧ p.cache = some 0
  postDone : c.pc = PC.post → c.localClient = none → st0 p = OnceSt.done
  resultOk : ∀ r, c.result = some r → r = GetRes.ok 0 ∧ p.constructCount = 1
  finishedRes : c.pc = PC.finished → c.result ≠ none

/-- Global invariant of the no-failure system. -/
structure InvP (s : Sys) : Prop where
  countLe : s.pool.constructCount ≤ 1
  cacheZero : ∀ cl, s.pool.cache = some cl → cl = 0 ∧ s.pool.constructCount = 1
  countCache : s.pool.constructCount = 1 → s.pool.cache = some 0
  onceShape : (s.pool.onceMap = none ∧ s.pool.onces = []) ∨
    (s.pool.onceMap = some 0 ∧ s.pool.onces.length = 1)
  doneCache : st0 s.pool = OnceSt.done → s.pool.cache = some 0
  perCaller : ∀ i, CInvP s.pool (s.callers i) i

theorem inv_init : InvP initSys := by
  refine ⟨by decide, ?_, ?_, Or.inl ⟨rfl, rfl⟩, ?_, ?_⟩
  · intro cl h
    exact absurd h (by simp [initSys])
  · intro h
    exact absurd h (by simp [initSys])
  · intro h
    exact absurd h (by simp [initSys, st0])
  · intro j
    exact ⟨fun o ho => (nomatch ho),
      fun hor => by rcases hor with h1 | h1 | h1 <;> exact (nomatch h1),
      fun hor => by rcases hor with h1 | h1 <;> exact (nomatch h1),
      fun h1 => (nomatch h1), rfl, fun cl hcl => (nomatch hcl),
      fun h1 => (nomatch h1), fun r hr => (nomatch hr), fun h1 => (nomatch h1)⟩

theorem step_pres_fastPath (s : Sys) (i : Nat) (h : InvP s)
    (hpc : (s.callers i).pc = PC.fastPath) : InvP (step noFail s i) := by
  cases hcache : s.pool.cache with
  | some cl =>
      obtain ⟨hcl0, hcount⟩ := h.cacheZero cl hcache
      have hstep : step noFail s i =
          { pool := s.pool
            callers := fun j => if j = i then
              { s.callers i with pc := PC.finished, result := some (GetRes.ok cl) }
              else s.callers j } := by
        simp [step, stepCaller, hpc, hcache]
      rw [hstep]
      refine ⟨h.countLe, h.cacheZero, h.countCache, h.onceShape, h.doneCache, ?_⟩
      intro j
      dsimp only
      by_cases hj : j = i
      · rw [if_pos hj]
        subst hj
        have cj := h.perCaller j
        exact ⟨cj.myOnce0,
          fun hor => by rcases hor with h1 | h1 | h1 <;> exact (nomatch h1),
          fun hor => by rcases hor with h1 | h1 <;> exact (nomatch h1),
          fun h1 => (nomatch h1), cj.errNone, cj.clientZero,
          fun h1 => (nomatch h1),
          fun r hr => by cases hr; exact ⟨by rw [hcl0], hcount⟩,
          fun _ => by simp⟩
      · rw [if_neg hj]
        exact h.perCaller j
  | none =>
      have hstep : step noFail s i =
          { pool := s.pool
            callers := fun j => if j = i then
              { s.callers i with pc := PC.loadOnce }
              else s.callers j } := by
        simp [step, stepCaller, hpc, hcache]
      rw [hstep]
      refine ⟨h.countLe, h.cacheZero, h.countCache, h.onceShape, h.doneCache, ?_⟩
      intro j
      dsimp only
      by_cases hj : j = i
      · rw [if_pos hj]
        subst hj
        have cj := h.perCaller j
        exact ⟨cj.myOnce0,
          fun hor => by rcases hor with h1 | h1 | h1 <;> exact (nomatch h1),
          fun hor => by rcases hor with h1 | h1 <;> exact (nomatch h1),
          fun h1 => (nomatch h1), cj.errNone, cj.clientZero,
          fun h1 => (nomatch h1), cj.resultOk, fun h1 => (nomatch h1)⟩
      · rw [if_neg hj]
        exact h.perCaller j

theorem step_pres_loadOnce (s : Sys) (i : Nat) (h : InvP s)
    (hpc : (s.callers i).pc = PC.loadOnce) : InvP (step noFail s i) := by
  cases homap : s.pool.onceMap with
  | some o =>
      have ho0 : o = 0 ∧ s.pool.onces.length = 1 := by
        rcases h.onceShape with ⟨hm, _⟩ | ⟨hm, hl⟩
        · rw [homap] at hm
          exact (nomatch hm)
        · rw [homap] at hm
          cases hm
          exact ⟨rfl, hl⟩
      obtain ⟨ho0, hlen⟩ := ho0
      subst ho0
      have hstep : step noFail s i =
          { pool := s.pool
            callers := fun j => if j = i then
              { s.callers i with pc := PC.tryOnce, myOnce := some 0 }
              else s.callers j } := by
        simp [step, stepCaller, hpc, homap]
      rw [hstep]
      refine ⟨h.countLe, h.cacheZero, h.countCache, h.onceShape, h.doneCache, ?_⟩
      intro j
      dsimp only
      by_cases hj : j = i
      · rw [if_pos hj]
        subst hj
        have cj := h.perCaller j
        exact ⟨fun o' ho' => by cases ho'; exact ⟨rfl, hlen⟩,
          fun _ => rfl,
          fun hor => by rcases hor with h1 | h1 <;> exact (nomatch h1),
          fun h1 => (nomatch h1), cj.errNone, cj.clientZero,
          fun h1 => (nomatch h1), cj.resultOk, fun h1 => (nomatch h1)⟩
      · rw [if_neg hj]
        exact h.perCaller j
  | none =>
      have honce : s.pool.onces = [] := by
        rcases h.onceShape with ⟨_, hn⟩ | ⟨hm, _⟩
        · exact hn
        · rw [homap] at hm
          exact (nomatch hm)
      have hstep : step noFail s i =
          { pool := { s.pool with onceMap := some 0, onces := [OnceSt.idle] }
            callers := fun j => if j = i then
              { s.callers i with pc := PC.tryOnce, myOnce := some 0 }
              else s.callers j } := by
        simp [step, stepCaller, hpc, homap, honce]
      rw [hstep]
      refine ⟨h.countLe, h.cacheZero, h.countCache, Or.inr ⟨rfl, rfl⟩,
        fun hd => (nomatch hd), ?_⟩
      intro j
      dsimp only
      by_cases hj : j = i
      · rw [if_pos hj]
        subst hj
        have cj := h.perCaller j
        exact ⟨fun o' ho' => by cases ho'; exact ⟨rfl, rfl⟩,
          fun _ => rfl,
          fun hor => by rcases hor with h1 | h1 <;> exact (nomatch h1),
          fun h1 => (nomatch h1), cj.errNone, cj.clientZero,
          fun h1 => (nomatch h1), cj.resultOk, fun h1 => (nomatch h1)⟩
      · rw [if_neg hj]
        have cj := h.perCaller j
        refine ⟨?_, ?_, ?_, cj.constructPre, cj.errNone, cj.clientZero, ?_,
          cj.resultOk, cj.finishedRes⟩
        · intro o ho
          obtain ⟨_, hlen⟩ := cj.myOnce0 o ho
          rw [honce] at hlen
          exact (nomatch hlen)
        · intro hor
          obtain ⟨_, hlen⟩ := cj.myOnce0 0 (cj.pcOnce hor)
          rw [honce] at hlen
          exact (nomatch hlen)
        · intro hor
          have hb := cj.bodyRunning hor
          rw [st0, honce] at hb
          exact (nomatch hb)
        · intro hp hn
          have hd := cj.postDone hp hn
          rw [st0, honce] at hd
          exact (nomatch hd)

theorem step_pres_tryOnce (s : Sys) (i : Nat) (h : InvP s)
    (hpc : (s.callers i).pc = PC.tryOnce) : InvP (step noFail s i) := by
  cases hmo : (s.callers i).myOnce with
  | none =>
      have hstep : step noFail s i =
          { pool := s.pool
            callers := fun j => if j = i then s.callers i else s.callers j } := by
        simp [step, stepCaller, hpc, hmo]
      rw [hstep]
      refine ⟨h.countLe, h.cacheZero, h.countCache, h.onceShape, h.doneCache, ?_⟩
      intro j
      dsimp only
      by_cases hj : j = i
      · rw [if_pos hj]
        subst hj
        exact h.perCaller j
      · rw [if_neg hj]
        exact h.perCaller j
  | some o =>
      have cio := h.perCaller i
      obtain ⟨ho0, hlen⟩ := cio.myOnce0 o hmo
      subst ho0
      obtain ⟨x, hx⟩ := List.length_eq_one.mp hlen
      cases x with
      | done =>
          have hstep : step noFail s i =
              { pool := s.pool
                callers := fun j => if j = i then
                  { s.callers i with pc := PC.post }
                  else s.callers j } := by
            simp [step, stepCaller, hpc, hmo, hx]
          rw [hstep]
          refine ⟨h.countLe, h.cacheZero, h.countCache, h.onceShape, h.doneCache, ?_⟩
          intro j
          dsimp only
          by_cases hj : j = i
          · rw [if_pos hj]
            subst hj
            have cj := h.perCaller j
            exact ⟨cj.myOnce0,
              fun hor => by rcases hor with h1 | h1 | h1 <;> exact (nomatch h1),
              fun hor => by rcases hor with h1 | h1 <;> exact (nomatch h1),
              fun h1 => (nomatch h1), cj.errNone, cj.clientZero,
              fun _ _ => by rw [st0, hx]; rfl, cj.resultOk,
              fun h1 => (nomatch h1)⟩
          · rw [if_neg hj]
            exact h.perCaller j
      | running owner =>
          have hstep : step noFail s i =
              { pool := s.pool
                callers := fun j => if j = i then s.callers i else s.callers j } := by
            simp [step, stepCaller, hpc, hmo, hx]
          rw [hstep]
          refine ⟨h.countLe, h.cacheZero, h.countCache, h.onceShape, h.doneCache, ?_⟩
          intro j
          dsimp only
          by_cases hj : j = i
          · rw [if_pos hj]
            subst hj
            exact h.perCaller j
          · rw [if_neg hj]
            exact h.perCaller j
      | idle =>
          have hstep : step noFail s i =
              { pool := { s.pool with onces := [OnceSt.running i] }
                callers := fun j => if j = i then
                  { s.callers i with pc := PC.bodyCheck }
                  else s.callers j } := by
            simp [step, stepCaller, hpc, hmo, hx]
          rw [hstep]
          have homap : s.pool.onceMap = some 0 := by
            rcases h.onceShape with ⟨_, hn⟩ | ⟨hm, _⟩
            · rw [hn] at hx
              exact (nomatch hx)
            · exact hm
          refine ⟨h.countLe, h.cacheZero, h.countCache, Or.inr ⟨homap, rfl⟩,
            fun hd => (nomatch hd), ?_⟩
          intro j
          dsimp only
          by_cases hj : j = i
          · rw [if_pos hj]
            subst hj
            have cj := h.perCaller j
            exact ⟨fun o' ho' => by rw [hmo] at ho'; cases ho'; exact ⟨rfl, rfl⟩,
              fun _ => hmo,
              fun _ => rfl,
              fun h1 => (nomatch h1), cj.errNone, cj.clientZero,
              fun h1 => (nomatch h1), cj.resultOk, fun h1 => (nomatch h1)⟩
          · rw [if_neg hj]
            have cj := h.perCaller j
            refine ⟨?_, cj.pcOnce, ?_, cj.constructPre, cj.errNone, cj.clientZero,
              ?_, cj.resultOk, cj.finishedRes⟩
            · intro o' ho'
              obtain ⟨ho0', _⟩ := cj.myOnce0 o' ho'
              exact ⟨ho0', rfl⟩
            · intro hor
              have hb := cj.bodyRunning hor
              rw [st0, hx] at hb
              exact (nomatch hb)
            · intro hp hn
              have hd := cj.postDone hp hn
              rw [st0, hx] at hd
              exact (nomatch hd)

theorem step_pres_bodyCheck (s : Sys) (i : Nat) (h : InvP s)
    (hpc : (s.callers i).pc = PC.bodyCheck) : InvP (step noFail s i) := by
  have cio := h.perCaller i
  have hmo : (s.callers i).myOnce = some 0 := cio.pcOnce (Or.inr (Or.inl hpc))
  obtain ⟨_, hlen⟩ := cio.myOnce0 0 hmo
  obtain ⟨x, hx⟩ := List.length_eq_one.mp hlen
  have hrun : st0 s.pool = OnceSt.running i := cio.bodyRunning (Or.inl hpc)
  have hxi : x = OnceSt.running i := by
    rw [st0, hx] at hrun
    exact hrun
  subst hxi
  cases hcache : s.pool.cache with
  | some cl =>
      obtain ⟨hcl0, hcount⟩ := h.cacheZero cl hcache
      subst hcl0
      have hstep : step noFail s i =
          { pool := { s.pool with onces := [OnceSt.done] }
            callers := fun j => if j = i then
              { s.callers i with localClient := some 0, pc := PC.post }
              else s.callers j } := by
        simp [step, stepCaller, hpc, hmo, hcache, hx]
      rw [hstep]
      have homap : s.pool.onceMap = some 0 := by
        rcases h.onceShape with ⟨_, hn⟩ | ⟨hm, _⟩
        · rw [hn] at hx
          exact (nomatch hx)
        · exact hm
      refine ⟨h.countLe, h.cacheZero, h.countCache, Or.inr ⟨homap, rfl⟩,
        fun _ => hcache, ?_⟩
      intro j
      dsimp only
      by_cases hj : j = i
      · rw [if_pos hj]
        subst hj
        have cj := h.perCaller j
        exact ⟨fun o' ho' => by rw [hmo] at ho'; cases ho'; exact ⟨rfl, rfl⟩,
          fun hor => by rcases hor with h1 | h1 | h1 <;> exact (nomatch h1),
          fun hor => by rcases hor with h1 | h1 <;> exact (nomatch h1),
          fun h1 => (nomatch h1), cj.errNone,
          fun cl' hcl' => by cases hcl'; exact ⟨rfl, hcache⟩,
          fun _ hn => (nomatch hn), cj.resultOk, fun h1 => (nomatch h1)⟩
      · rw [if_neg hj]
        have cj := h.perCaller j
        refine ⟨?_, cj.pcOnce, ?_, ?_, cj.errNone, ?_, ?_, cj.resultOk,
          cj.finishedRes⟩
        · intro o' ho'
          obtain ⟨ho0', _⟩ := cj.myOnce0 o' ho'
          exact ⟨ho0', rfl⟩
        · intro hor
          have hb := cj.bodyRunning hor
          rw [st0, hx] at hb
          cases hb
          exact absurd rfl hj
        · intro hbc
          have hb := cj.bodyRunning (Or.inr hbc)
          rw [st0, hx] at hb
          cases hb
          exact absurd rfl hj
        · intro cl' hcl'
          obtain ⟨hcl0', hcc⟩ := cj.clientZero cl' hcl'
          exact ⟨hcl0', hcc⟩
        · intro hp hn
          have hd := cj.postDone hp hn
          rw [st0, hx] at hd
          exact (nomatch hd)
  | none =>
      have hcount : s.pool.constructCount = 0 := by
        have hle := h.countLe
        rcases Nat.lt_or_ge s.pool.constructCount 1 with hlt | hge
        · omega
        · have h1 : s.pool.constructCount = 1 := by omega
          have := h.countCache h1
          rw [hcache] at this
          exact (nomatch this)
      have hstep : step noFail s i =
          { pool := s.pool
            callers := fun j => if j = i then
              { s.callers i with pc := PC.bodyConstruct }
              else s.callers j } := by
        simp [step, stepCaller, hpc, hmo, hcache]
      rw [hstep]
      refine ⟨h.countLe, h.cacheZero, h.countCache, h.onceShape, h.doneCache, ?_⟩
      intro j
      dsimp only
      by_cases hj : j = i
      · rw [if_pos hj]
        subst hj
        have cj := h.perCaller j
        exact ⟨fun o' ho' => by rw [hmo] at ho'; cases ho'; exact ⟨rfl, hlen⟩,
          fun _ => hmo,
          fun _ => hrun,
          fun _ => ⟨hcache, hcount⟩, cj.errNone, cj.clientZero,
          fun h1 => (nomatch h1), cj.resultOk, fun h1 => (nomatch h1)⟩
      · rw [if_neg hj]
        exact h.perCaller j

theorem step_pres_bodyConstruct (s : Sys) (i : Nat) (h : InvP s)
    (hpc : (s.callers i).pc = PC.bodyConstruct) : InvP (step noFail s i) := by
  have cio := h.perCaller i
  have hmo : (s.callers i).myOnce = some 0 := cio.pcOnce (Or.inr (Or.inr hpc))
  obtain ⟨_, hlen⟩ := cio.myOnce0 0 hmo
  obtain ⟨x, hx⟩ := List.length_eq_one.mp hlen
  have hrun : st0 s.pool = OnceSt.running i := cio.bodyRunning (Or.inr hpc)
  have hxi : x = OnceSt.running i := by
    rw [st0, hx] at hrun
    exact hrun
  subst hxi
  obtain ⟨hcache, hcount⟩ := cio.constructPre hpc
  have hstep : step noFail s i =
      { pool := { s.pool with
                    constructCount := 1
                    cache := some 0
                    onces := [OnceSt.done] }
        callers := fun j => if j = i then
          { s.callers i with localClient := some 0, pc := PC.post }
          else s.callers j } := by
    simp [step, stepCaller, hpc, hmo, hx, noFail, hcount]
  rw [hstep]
  have homap : s.pool.onceMap = some 0 := by
    rcases h.onceShape with ⟨_, hn⟩ | ⟨hm, _⟩
    · rw [hn] at hx
      exact (nomatch hx)
    · exact hm
  refine ⟨Nat.le_refl 1, ?_, fun _ => rfl, Or.inr ⟨homap, rfl⟩, fun _ => rfl, ?_⟩
  · intro cl hcl
    cases hcl
    exact ⟨rfl, rfl⟩
  intro j
  dsimp only
  by_cases hj : j = i
  · rw [if_pos hj]
    subst hj
    have cj := h.perCaller j
    exact ⟨fun o' ho' => by rw [hmo] at ho'; cases ho'; exact ⟨rfl, rfl⟩,
      fun hor => by rcases hor with h1 | h1 | h1 <;> exact (nomatch h1),
      fun hor => by rcases hor with h1 | h1 <;> exact (nomatch h1),
      fun h1 => (nomatch h1), cj.errNone,
      fun cl' hcl' => by cases hcl'; exact ⟨rfl, rfl⟩,
      fun _ hn => (nomatch hn),
      fun r hr => ⟨(cj.resultOk r hr).1, rfl⟩,
      fun h1 => (nomatch h1)⟩
  · rw [if_neg hj]
    have cj := h.perCaller j
    refine ⟨?_, cj.pcOnce, ?_, ?_, cj.errNone, ?_, ?_, ?_, cj.finishedRes⟩
    · intro o' ho'
      obtain ⟨ho0', _⟩ := cj.myOnce0 o' ho'
      exact ⟨ho0', rfl⟩
    · intro hor
      have hb := cj.bodyRunning hor
      rw [st0, hx] at hb
      cases hb
      exact absurd rfl hj
    · intro hbc
      have hb := cj.bodyRunning (Or.inr hbc)
      rw [st0, hx] at hb
      cases hb
      exact absurd rfl hj
    · intro cl' hcl'
      obtain ⟨_, hcc⟩ := cj.clientZero cl' hcl'
      rw [hcache] at hcc
      exact (nomatch hcc)
    · intro hp hn
      have hd := cj.postDone hp hn
      rw [st0, hx] at hd
      exact (nomatch hd)
    · intro r hr
      obtain ⟨_, hcc⟩ := cj.resultOk r hr
      rw [hcount] at hcc
      exact (nomatch hcc)

theorem step_pres_post (s : Sys) (i : Nat) (h : InvP s)
    (hpc : (s.callers i).pc = PC.post) : InvP (step noFail s i) := by
  have cio := h.perCaller i
  have hle : (s.callers i).localErr = none := cio.errNone
  cases hlc : (s.callers i).localClient with
  | some cl =>
      obtain ⟨hcl0, hcache0⟩ := cio.clientZero cl hlc
      subst hcl0
      obtain ⟨_, hcount⟩ := h.cacheZero 0 hcache0
      have hstep : step noFail s i =
          { pool := s.pool
            callers := fun j => if j = i then
              { s.callers i with pc := PC.finished, result := some (GetRes.ok 0) }
              else s.callers j } := by
        simp [step, stepCaller, hpc, hle, hlc]
      rw [hstep]
      refine ⟨h.countLe, h.cacheZero, h.countCache, h.onceShape, h.doneCache, ?_⟩
      intro j
      dsimp only
      by_cases hj : j = i
      · rw [if_pos hj]
        subst hj
        have cj := h.perCaller j
        exact ⟨cj.myOnce0,
          fun hor => by rcases hor with h1 | h1 | h1 <;> exact (nomatch h1),
          fun hor => by rcases hor with h1 | h1 <;> exact (nomatch h1),
          fun h1 => (nomatch h1), cj.errNone, cj.clientZero,
          fun h1 => (nomatch h1),
          fun r hr => by cases hr; exact ⟨rfl, hcount⟩,
          fun _ => by simp⟩
      · rw [if_neg hj]
        exact h.perCaller j
  | none =>
      cases hcache : s.pool.cache with
      | some cl =>
          obtain ⟨hcl0, hcount⟩ := h.cacheZero cl hcache
          subst hcl0
          have hstep : step noFail s i =
              { pool := s.pool
                callers := fun j => if j = i then
                  { s.callers i with pc := PC.finished,
                                     result := some (GetRes.ok 0) }
                  else s.callers j } := by
            simp [step, stepCaller, hpc, hle, hlc, hcache]
          rw [hstep]
          refine ⟨h.countLe, h.cacheZero, h.countCache, h.onceShape,
            h.doneCache, ?_⟩
          intro j
          dsimp only
          by_cases hj : j = i
          · rw [if_pos hj]
            subst hj
            have cj := h.perCaller j
            exact ⟨cj.myOnce0,
              fun hor => by rcases hor with h1 | h1 | h1 <;> exact (nomatch h1),
              fun hor => by rcases hor with h1 | h1 <;> exact (nomatch h1),
              fun h1 => (nomatch h1), cj.errNone, cj.clientZero,
              fun h1 => (nomatch h1),
              fun r hr => by cases hr; exact ⟨rfl, hcount⟩,
              fun _ => by simp⟩
          · rw [if_neg hj]
            exact h.perCaller j
      | none =>
          have hd := cio.postDone hpc hlc
          have hc := h.doneCache hd
          rw [hcache] at hc
          exact (nomatch hc)

theorem step_pres_finished (s : Sys) (i : Nat) (h : InvP s)
    (hpc : (s.callers i).pc = PC.finished) : InvP (step noFail s i) := by
  have hstep : step noFail s i =
      { pool := s.pool
        callers := fun j => if j = i then s.callers i else s.callers j } := by
    simp [step, stepCaller, hpc]
  rw [hstep]
  refine ⟨h.countLe, h.cacheZero, h.countCache, h.onceShape, h.doneCache, ?_⟩
  intro j
  dsimp only
  by_cases hj : j = i
  · rw [if_pos hj]
    subst hj
    exact h.perCaller j
  · rw [if_neg hj]
    exact h.perCaller j

/-- The invariant is preserved by every step of every caller. -/
theorem inv_step (s : Sys) (i : Nat) (h : InvP s) : InvP (step noFail s i) := by
  cases hpc : (s.callers i).pc with
  | fastPath => exact step_pres_fastPath s i h hpc
  | loadOnce => exact step_pres_loadOnce s i h hpc
  | tryOnce => exact step_pres_tryOnce s i h hpc
  | bodyCheck => exact step_pres_bodyCheck s i h hpc
  | bodyConstruct => exact step_pres_bodyConstruct s i h hpc
  | post => exact step_pres_post s i h hpc
  | finished => exact step_pres_finished s i h hpc

theorem inv_fold : ∀ (sched : List Nat) (s : Sys), InvP s →
    InvP (sched.foldl (step noFail) s)
  | [], _, h => h
  | i :: rest, s, h => inv_fold rest (step noFail s i) (inv_step s i h)

/-- Every reachable state of a no-failure run satisfies the invariant. -/
theorem inv_run (sched : List Nat) : InvP (run noFail sched) :=
  inv_fold sched initSys inv_init

/-- C1 amended: under an always-succeeding constructor, every schedule of
every number of concurrent callers performs at most one construction;
every caller that finishes receives the identical client (the single
constructed client, id 0), and any caller's completion implies exactly
one construction was performed.  When construction fails, the failure is
not cached (cache and once guard are cleared, so a subsequent call
retries and succeeds) -- but concurrent waiters receive a distinct
generic error rather than the winner's construction error (see the
counterexample), which is the sole revision to the claim. -/
theorem C1_single_flight_amended :
    (∀ sched : List Nat, (run noFail sched).pool.constructCount ≤ 1) ∧
    (∀ (sched : List Nat) (i : Nat) (r : GetRes),
      ((run noFail sched).callers i).result = some r →
      r = GetRes.ok 0 ∧ (run noFail sched).pool.constructCount = 1) ∧
    (∀ (sched : List Nat) (i j : Nat) (ri rj : GetRes),
      ((run noFail sched).callers i).result = some ri →
      ((run noFail sched).callers j).result = some rj → ri = rj) ∧
    ((run failsFirst raceSched).pool.cache = none ∧
      (run failsFirst raceSched).pool.onceMap = none) ∧
    ((run failsFirst (raceSched ++ [2, 2, 2, 2, 2, 2])).callers 2).result
      = some (GetRes.ok 1) := by
  refine ⟨?_, ?_, ?_, ⟨rfl, rfl⟩, rfl⟩
  · intro sched
    exact (inv_run sched).countLe
  · intro sched i r hr
    exact ((inv_run sched).perCaller i).resultOk r hr
  · intro sched i j ri rj hi hj
    have h1 := (((inv_run sched).perCaller i).resultOk ri hi).1
    have h2 := (((inv_run sched).perCaller j).resultOk rj hj).1
    rw [h1, h2]

theorem C1_single_flight_amended_witness :
    ((run noFail [0, 0, 0, 0, 0, 0, 1]).callers 0).result = some (GetRes.ok 0) ∧
    ((run noFail [0, 0, 0, 0, 0, 0, 1]).callers 1).result = some (GetRes.ok 0) ∧
    (run noFail [0, 0, 0, 0, 0, 0, 1]).pool.constructCount = 1 ∧
    GetRes.ok 0 = GetRes.ok 0 :=
  ⟨rfl, rfl,
   (C1_single_flight_amended.2.1 [0, 0, 0, 0, 0, 0, 1] 0 (GetRes.ok 0) rfl).2,
   C1_single_flight_amended.2.2.1 [0, 0, 0, 0, 0, 0, 1] 0 1 (GetRes.ok 0)
     (GetRes.ok 0) rfl rfl⟩

end GoPool
